import Mathlib

set_option autoImplicit false

/-!
Verification of the identity-resolution core in
`src/app/core/identity_resolver.py`.

Python dicts are modelled as insertion-ordered association lists
(`List (String × β)`); dict assignment is `upsert`, `dict.get` is `getD`,
`dict.values()` is `valuesOf`, `dict.update` is `updateA`.  Strings are Lean
`String`s; `str.lower` / `str.upper` are modelled with the ASCII case maps
`Char.toLower` / `Char.toUpper`.
-/

/-- Embedding of Python `str.lower` on the character list of a string. -/
def strLowerL (s : List Char) : List Char := s.map Char.toLower

/-- Embedding of Python `str.lower`. -/
def strLower (s : String) : String := ⟨strLowerL s.data⟩

/-- Embedding of Python `str.upper` on the character list of a string. -/
def strUpperL (s : List Char) : List Char := s.map Char.toUpper

/-- Embedding of Python `str.upper`. -/
def strUpper (s : String) : String := ⟨strUpperL s.data⟩

/-! ### `levenshtein_distance` (identity_resolver.py, lines 10-24)

The source computes the distance with a rolling one-dimensional dynamic
program: `distances` is the previous row, `distances_` the row being built.
`dpRow` is the inner `for i1, c1 in enumerate(s1)` loop (the `prev` argument
is `distances_[-1]`, the entry appended last), `levLoop` is the outer
`for i2, c2 in enumerate(s2)` loop, and `levCore` runs the loops from the
initial row `range(len(s1) + 1)` and returns `distances[-1]`. -/

/-- Inner loop of the dynamic program: walk `s1` against the previous row. -/
def dpRow (c2 : Char) : List Char → List Nat → Nat → List Nat
  | [], _, _ => []
  | _ :: _, [], _ => []
  | _ :: _, [_], _ => []
  | c1 :: s1, d0 :: d1 :: ds, prev =>
      let next := if c1 = c2 then d0 else 1 + min d0 (min d1 prev)
      next :: dpRow c2 s1 (d1 :: ds) next

/-- Outer loop of the dynamic program: one row per character of `s2`;
`i2` is the Python `enumerate` counter. -/
def levLoop (s1 : List Char) : List Char → List Nat → Nat → List Nat
  | [], distances, _ => distances
  | c2 :: s2, distances, i2 =>
      levLoop s1 s2 ((i2 + 1) :: dpRow c2 s1 distances (i2 + 1)) (i2 + 1)

/-- The dynamic program of the source after lowercasing and swapping:
run the rows and return the last entry of the final row (`distances[-1]`;
the row list is never empty, so the default of `getLastD` is never used). -/
def levCore (s1 s2 : List Char) : Nat :=
  (levLoop s1 s2 (List.range (s1.length + 1)) 0).getLastD 0

/-- Embedding of `levenshtein_distance`: lowercase both strings, swap so the
first is no longer than the second, then run the dynamic program. -/
def levenshtein_distance (a b : String) : Nat :=
  let s1 := strLowerL a.data
  let s2 := strLowerL b.data
  if s1.length > s2.length then levCore s2 s1 else levCore s1 s2

/-- Reference specification: the classical recursive Levenshtein distance on
character lists, against which the dynamic program is proved correct. -/
def levRec : List Char → List Char → Nat
  | [], t => t.length
  | s, [] => s.length
  | a :: s, b :: t =>
      if a = b then levRec s t
      else 1 + min (levRec s (b :: t)) (min (levRec (a :: s) t) (levRec s t))
termination_by s t => s.length + t.length
decreasing_by all_goals (simp only [List.length_cons]; omega)

/-! ### Correctness of the dynamic program

`rowSpec y revq xs` is the row of reference distances the dynamic program
maintains: its entry for each prefix `q` of `s1` (with `revq` the reversed
prefix already consumed) is `levRec q.reverse y`, where `y` is the reversed
prefix of `s2` processed so far.  The last characters compared by the
program become the first characters seen by `levRec` on the reversals. -/

def rowSpec (y : List Char) : List Char → List Char → List Nat
  | revq, [] => [levRec revq y]
  | revq, x :: xs => levRec revq y :: rowSpec y (x :: revq) xs

/-! ### Association-list model of Python dicts -/

/-- Python dict assignment `d[k] = v`: overwrite in place when the key is
present (keeping its position), otherwise append at the end. -/
def upsert {β : Type} (k : String) (v : β) : List (String × β) → List (String × β)
  | [] => [(k, v)]
  | (k', v') :: rest => if k' = k then (k, v) :: rest else (k', v') :: upsert k v rest

/-- Python `d.get(k, dfl)`. -/
def getD {β : Type} (d : List (String × β)) (k : String) (dfl : β) : β :=
  (List.lookup k d).getD dfl

/-- Python `d.values()`. -/
def valuesOf {β : Type} (d : List (String × β)) : List β := d.map Prod.snd

/-- Python `d.update(other)`: assign every entry of `other` in order. -/
def updateA {β : Type} (d other : List (String × β)) : List (String × β) :=
  other.foldl (fun acc kv => upsert kv.1 kv.2 acc) d

/-! ### The store model (identity_resolver.py, lines 28-169)

The persisted JSON object is modelled structurally: `persons` maps a
person id to a record mapping a category name (plural) to a
placeholder → raw-value map; `unlinked` is the `unlinked_pii` object; the
`_metadata` object is the two fields `lastPersonIndex`
(`None` when the key is absent, matching `metadata.get("last_person_index", -1)`)
and `unlinkedCounters`. -/

abbrev PiiEntries := List (String × String)

abbrev PersonRecord := List (String × PiiEntries)

abbrev Clusters := List (String × List String)

abbrev PiiData := List (String × List String)

structure IdStore where
  persons : List (String × PersonRecord)
  unlinked : List (String × PiiEntries)
  lastPersonIndex : Option Int
  unlinkedCounters : List (String × Int)
deriving DecidableEq

def emptyStore : IdStore := ⟨[], [], none, []⟩

/-- The batch shape consumed from the external grouping collaborator. -/
structure Batch where
  persons : List (String × PiiData)
  unlinked_pii : PiiData
deriving DecidableEq

/-- `_build_lookup_index`: map every stored raw value to its person id;
a value stored twice is owned by the person encountered later. -/
def build_lookup_index (persons : List (String × PersonRecord)) : List (String × String) :=
  persons.foldl (fun lk pd =>
    pd.2.foldl (fun lk tv =>
      tv.2.foldl (fun lk pv => upsert pv.2 pd.1 lk) lk) lk) []

/-- `_get_next_person_id`: read `last_person_index` (default `-1`), increment,
store the increment, and format the id. -/
def get_next_person_id (st : IdStore) : String × IdStore :=
  let lastIndex : Int := st.lastPersonIndex.getD (-1)
  let nextIndex := lastIndex + 1
  ("PERSON_" ++ toString nextIndex, { st with lastPersonIndex := some nextIndex })

/-- The fixed exact-match category order of `_find_match`. -/
def exactMatchKeys : List String := ["emails", "phones", "nrics", "ssns"]

/-- Exact pass of `_find_match`: first value of the (plural-keyed) input
lists found in the lookup index wins. -/
def findExact (lookup : List (String × String)) (piiData : PiiData) : Option String :=
  exactMatchKeys.findSome? (fun t =>
    (getD piiData t []).findSome? (fun v => List.lookup v lookup))

/-- Fuzzy pass of `_find_match`: first stored name of the first person at
distance ≤ 2 from an input name (under the input key `names`) wins; also
reports the matched name pair for the cluster log. -/
def findFuzzy (persons : List (String × PersonRecord)) (piiData : PiiData) :
    Option (String × String × String) :=
  (getD piiData "names" []).findSome? (fun newName =>
    persons.findSome? (fun pd =>
      (valuesOf (getD pd.2 "names" [])).findSome? (fun ex =>
        if levenshtein_distance newName ex ≤ 2 then some (pd.1, newName, ex) else none)))

/-- The single-quote character, written by code point to mirror the Python
message formatting. -/
def quoteMark : String := String.mk [Char.ofNat 39]

/-- The audit line `f"Fuzzy matched {new_name} with {existing_name}"`
(the names are single-quoted in the source). -/
def fuzzyMsg (newName ex : String) : String :=
  "Fuzzy matched " ++ quoteMark ++ newName ++ quoteMark ++ " with "
    ++ quoteMark ++ ex ++ quoteMark

/-- `_find_match`: exact pass first, then the fuzzy pass, which appends an
audit line to the matched person's cluster log. -/
def find_match (lookup : List (String × String)) (persons : List (String × PersonRecord))
    (clusters : Clusters) (piiData : PiiData) : Option String × Clusters :=
  match findExact lookup piiData with
  | some pid => (some pid, clusters)
  | none =>
      match findFuzzy persons piiData with
      | some (pid, n, e) =>
          (some pid, upsert pid (getD clusters pid [] ++ [fuzzyMsg n e]) clusters)
      | none => (none, clusters)

/-- Python `d.setdefault`-style guard used by the source
(`if key not in d: d[key] = e`): keep `d` when the key is present, otherwise
insert `e` under it. -/
def ensureKey {β : Type} (k : String) (e : β) (d : List (String × β)) :
    List (String × β) :=
  if (List.lookup k d).isSome then d else upsert k e d

/-- Accumulator of `_merge_person_pii`: the person's profile, the live lookup
index, the returned `{value: placeholder}` map, and `storedLog`, a ghost list
(used only by specifications) recording each raw value the merge stored. -/
structure MergeAcc where
  profile : PersonRecord
  lookup : List (String × String)
  placeholders : List (String × String)
  storedLog : List String
deriving DecidableEq

/-- Inner loop of `_merge_person_pii` over one category's value list.
`existing` is the snapshot `set(person_profile[pii_type_plural].values())`
the source takes before the loop; the source does not refresh it as values
are stored. -/
def mergeValues (personId piiType plural : String) (existing : List String) :
    List String → MergeAcc → MergeAcc
  | [], acc => acc
  | v :: vs, acc =>
      if v ∈ existing then mergeValues personId piiType plural existing vs acc
      else
        let cat := getD acc.profile plural []
        let ph := "[" ++ personId ++ "_" ++ strUpper piiType ++ "_"
          ++ toString cat.length ++ "]"
        mergeValues personId piiType plural existing vs
          { profile := upsert plural (upsert ph v cat) acc.profile
            lookup := upsert v personId acc.lookup
            placeholders := upsert v ph acc.placeholders
            storedLog := acc.storedLog ++ [v] }

/-- Outer loop of `_merge_person_pii` over the tentative person's
`{pii_type: values}` items: pluralize the type (`lower() + "s"`), ensure the
category object exists, snapshot its values, then merge each value. -/
def mergePii (personId : String) : PiiData → MergeAcc → MergeAcc
  | [], acc => acc
  | (pty, vs) :: rest, acc =>
      let plural := strLower pty ++ "s"
      let prof1 := ensureKey plural [] acc.profile
      let existing := valuesOf (getD prof1 plural [])
      mergePii personId rest
        (mergeValues personId pty plural existing vs { acc with profile := prof1 })

/-- `_merge_person_pii`: run the merge on the person's profile (mutated in
place in the source, written back here) with fresh placeholder and log
accumulators. -/
def merge_person_pii (personId : String) (piiData : PiiData)
    (persons : List (String × PersonRecord)) (lookup : List (String × String)) :
    List (String × PersonRecord) × MergeAcc :=
  let acc := mergePii personId piiData ⟨getD persons personId [], lookup, [], []⟩
  (upsert personId acc.profile persons, acc)

/-- Accumulator of `_process_unlinked_pii`, with the same ghost `storedLog`. -/
structure UnlinkedAcc where
  ustore : List (String × PiiEntries)
  counters : List (String × Int)
  placeholders : List (String × String)
  storedLog : List String
deriving DecidableEq

/-- Inner loop of `_process_unlinked_pii`: the duplicate check
`value not in unlinked_store[pii_type].values()` reads the live object, so
it sees values stored earlier in the same call. -/
def processUnlinkedValues (piiType : String) : List String → UnlinkedAcc → UnlinkedAcc
  | [], acc => acc
  | v :: vs, acc =>
      if v ∈ valuesOf (getD acc.ustore piiType []) then
        processUnlinkedValues piiType vs acc
      else
        let idx := getD acc.counters (strUpper piiType) 0
        let ph := "[UNMATCHED_" ++ strUpper piiType ++ "_" ++ toString idx ++ "]"
        processUnlinkedValues piiType vs
          { ustore := upsert piiType (upsert ph v (getD acc.ustore piiType [])) acc.ustore
            counters := upsert (strUpper piiType) (idx + 1) acc.counters
            placeholders := upsert v ph acc.placeholders
            storedLog := acc.storedLog ++ [v] }

/-- `_process_unlinked_pii`: for each unlinked type, ensure its object
exists (`setdefault`) and process its values. -/
def process_unlinked_pii : PiiData → UnlinkedAcc → UnlinkedAcc
  | [], acc => acc
  | (pty, vs) :: rest, acc =>
      let ustore1 := ensureKey pty [] acc.ustore
      process_unlinked_pii rest (processUnlinkedValues pty vs { acc with ustore := ustore1 })

/-- In-memory state of one `resolve_and_update` call: the store, the cluster
log, the live `_pii_lookup` index, the accumulated
`document_masking_map`, and the ghost log of stored values. -/
structure ResolveState where
  store : IdStore
  clusters : Clusters
  piiLookup : List (String × String)
  docMap : List (String × String)
  storedLog : List String
deriving DecidableEq

/-- One iteration of the person loop of `resolve_and_update`: match, create a
fresh empty person when no match is found, merge, and fold the returned
placeholders into the document map. -/
def processPerson (rs : ResolveState) (piiData : PiiData) : ResolveState :=
  let m := find_match rs.piiLookup rs.store.persons rs.clusters piiData
  let pidStore : String × IdStore :=
    match m.1 with
    | some pid => (pid, rs.store)
    | none =>
        let r := get_next_person_id rs.store
        (r.1, { r.2 with persons := upsert r.1 [] r.2.persons })
  let r := merge_person_pii pidStore.1 piiData pidStore.2.persons rs.piiLookup
  { store := { pidStore.2 with persons := r.1 }
    clusters := m.2
    piiLookup := r.2.lookup
    docMap := updateA rs.docMap r.2.placeholders
    storedLog := rs.storedLog ++ r.2.storedLog }

/-- `resolve_and_update` on in-memory state (the body of the critical
section between the reload and the save): rebuild the lookup index, process
each tentative person, then process the unlinked PII. -/
def resolve_and_update (st : IdStore) (cl : Clusters) (batch : Batch) : ResolveState :=
  let rs0 : ResolveState := ⟨st, cl, build_lookup_index st.persons, [], []⟩
  let rs1 := batch.persons.foldl (fun rs tp => processPerson rs tp.2) rs0
  let u := process_unlinked_pii batch.unlinked_pii
    ⟨rs1.store.unlinked, rs1.store.unlinkedCounters, [], []⟩
  { rs1 with
      store := { rs1.store with unlinked := u.ustore, unlinkedCounters := u.counters }
      docMap := updateA rs1.docMap u.placeholders
      storedLog := rs1.storedLog ++ u.storedLog }

/-! ### Concrete scenarios for the claims -/

/-- A store already holding `a@x.com` under `PERSON_0`. -/
def c1Store : IdStore :=
  { persons := [("PERSON_0", [("emails", [("[PERSON_0_EMAIL_0]", "a@x.com")])])],
    unlinked := [], lastPersonIndex := some 0, unlinkedCounters := [] }

/-- A batch shaped as in the external interface (singular type name `email`)
carrying the stored value `a@x.com`. -/
def c1Batch : Batch := ⟨[("t1", [("email", ["a@x.com"])])], []⟩

/-- A batch in which the same raw value appears twice in the same category's
value list of one tentative person. -/
def c2Batch : Batch := ⟨[("t1", [("email", ["a@x.com", "a@x.com"])])], []⟩

/-- The unlinked batch of the claimed scenario. -/
def c3Batch : Batch := ⟨[], [("address", ["12 Main St"])]⟩

/-- A store already holding `John Smith` as a name of `PERSON_0`. -/
def c5Store : IdStore :=
  { persons := [("PERSON_0", [("names", [("[PERSON_0_NAME_0]", "John Smith")])])],
    unlinked := [], lastPersonIndex := some 0, unlinkedCounters := [] }

/-- A batch shaped as in the external interface (singular type name `name`)
carrying `Jon Smyth`, at edit distance 2 from the stored name. -/
def c5Batch : Batch := ⟨[("t1", [("name", ["Jon Smyth"])])], []⟩

/-- A single batch submitting `a@x.com` both under a tentative person and as
unlinked PII of type `email`. -/
def c8Batch : Batch := ⟨[("t1", [("email", ["a@x.com"])])], [("email", ["a@x.com"])]⟩

/-! ### Persistence model (lock, load, save, fault semantics) -/

/-- Observable state of a persisted file for `_load_json`: the path may be
absent, hold content that is not valid JSON, or hold a valid serialized
value. -/
inductive FileData (α : Type)
  | missing
  | corrupt
  | valid (a : α)
deriving DecidableEq

/-- `_load_json`: a missing path yields `{}` and a `json.JSONDecodeError` is
caught and also yields `{}`; a valid file yields its content.  Totality of
this function is the no-exception guarantee of the source's
`try/except JSONDecodeError`. -/
def load_json {α : Type} (empty : α) : FileData α → α
  | FileData.missing => empty
  | FileData.corrupt => empty
  | FileData.valid a => a

/-- The two persisted files of the store. -/
structure Disk where
  storeFile : FileData IdStore
  clusterFile : FileData Clusters
deriving DecidableEq

/-- Fault-injection points modelling a Python exception raised inside the
critical section before the save step: while the person matching/merging
loop runs (after `k` of its iterations), or while unlinked PII is
processed. -/
inductive Fault
  | duringPersons (k : Nat)
  | duringUnlinked
deriving DecidableEq

/-- Disk-level `resolve_and_update` under the cross-process lock, with an
optional injected fault.  The first component is the disk after the call,
the second the lock state after the call (the `with self.lock:` block
releases the lock on both the normal and the exception path), the third the
outcome.  In-memory mutations are computed even on the faulting paths —
mirroring that the source mutates `self.store` freely — but the disk is only
written by the save step, which runs last. -/
def resolve_with_fault (disk : Disk) (batch : Batch) (fault : Option Fault) :
    Disk × Bool × Except Unit (List (String × String)) :=
  let st := load_json emptyStore disk.storeFile
  let cl := load_json [] disk.clusterFile
  let rs0 : ResolveState := ⟨st, cl, build_lookup_index st.persons, [], []⟩
  match fault with
  | some (Fault.duringPersons k) =>
      let _rsPartial := (batch.persons.take k).foldl (fun rs tp => processPerson rs tp.2) rs0
      (disk, false, Except.error ())
  | some Fault.duringUnlinked =>
      let rs1 := batch.persons.foldl (fun rs tp => processPerson rs tp.2) rs0
      let _u := process_unlinked_pii batch.unlinked_pii
        ⟨rs1.store.unlinked, rs1.store.unlinkedCounters, [], []⟩
      (disk, false, Except.error ())
  | none =>
      let rs := resolve_and_update st cl batch
      (⟨FileData.valid rs.store, FileData.valid rs.clusters⟩, false, Except.ok rs.docMap)

/-! ## Theorems -/

theorem levRec_nil_left (t : List Char) : levRec [] t = t.length := by
  cases t <;> simp [levRec]

theorem levRec_nil_right (s : List Char) : levRec s [] = s.length := by
  cases s <;> simp [levRec]

theorem levRec_cons_cons (a b : Char) (s t : List Char) :
    levRec (a :: s) (b :: t) =
      if a = b then levRec s t
      else 1 + min (levRec s (b :: t)) (min (levRec (a :: s) t) (levRec s t)) := by
  simp [levRec]

theorem rowSpec_cons (y revq : List Char) (xs : List Char) :
    rowSpec y revq xs = levRec revq y :: (rowSpec y revq xs).tail := by
  cases xs <;> rfl

theorem rowSpec_nil (revq xs : List Char) :
    rowSpec [] revq xs = List.range' revq.length (xs.length + 1) := by
  induction xs generalizing revq with
  | nil => simp [rowSpec, levRec_nil_right, List.range']
  | cons x xs ih =>
      simp only [rowSpec, levRec_nil_right, List.length_cons, List.range']
      rw [ih (x :: revq)]
      simp
      rfl

theorem dpRow_spec (c : Char) (y : List Char) :
    ∀ (xs revq : List Char) (prev : Nat), prev = levRec revq (c :: y) →
      dpRow c xs (rowSpec y revq xs) prev = (rowSpec (c :: y) revq xs).tail := by
  intro xs
  induction xs with
  | nil => intro revq prev _; rfl
  | cons x xs ih =>
      intro revq prev hprev
      have hx : rowSpec y revq (x :: xs) =
          levRec revq y :: levRec (x :: revq) y :: (rowSpec y (x :: revq) xs).tail := by
        conv_lhs => rw [show rowSpec y revq (x :: xs)
              = levRec revq y :: rowSpec y (x :: revq) xs from rfl]
        conv_lhs => rw [rowSpec_cons y (x :: revq) xs]
      rw [hx]
      simp only [dpRow]
      have hnext : (if x = c then levRec revq y
            else 1 + min (levRec revq y) (min (levRec (x :: revq) y) prev))
          = levRec (x :: revq) (c :: y) := by
        rw [levRec_cons_cons, hprev]
        by_cases h : x = c
        · simp [h]
        · simp only [if_neg h]
          omega
      rw [hnext, ← rowSpec_cons y (x :: revq) xs,
        ih (x :: revq) (levRec (x :: revq) (c :: y)) rfl,
        show rowSpec (c :: y) revq (x :: xs)
            = levRec revq (c :: y) :: rowSpec (c :: y) (x :: revq) xs from rfl,
        List.tail_cons, ← rowSpec_cons]

theorem levLoop_spec (s1 : List Char) :
    ∀ (s2 y : List Char),
      levLoop s1 s2 (rowSpec y [] s1) y.length = rowSpec (s2.reverse ++ y) [] s1 := by
  intro s2
  induction s2 with
  | nil => intro y; simp [levLoop]
  | cons c s2 ih =>
      intro y
      simp only [levLoop]
      have hrow : (y.length + 1) :: dpRow c s1 (rowSpec y [] s1) (y.length + 1)
          = rowSpec (c :: y) [] s1 := by
        have hlen : (y.length + 1) = levRec ([] : List Char) (c :: y) := by
          rw [levRec_nil_left]; simp
        rw [hlen, dpRow_spec c y s1 [] (levRec [] (c :: y)) rfl, ← rowSpec_cons]
      rw [hrow, show y.length + 1 = (c :: y).length from rfl, ih (c :: y)]
      simp

theorem rowSpec_getLastD (y : List Char) :
    ∀ (xs revq : List Char) (d : Nat),
      (rowSpec y revq xs).getLastD d = levRec (xs.reverse ++ revq) y := by
  intro xs
  induction xs with
  | nil => intro revq d; simp [rowSpec]
  | cons x xs ih =>
      intro revq d
      rw [show rowSpec y revq (x :: xs) = levRec revq y :: rowSpec y (x :: revq) xs from rfl,
        List.getLastD_cons, ih (x :: revq)]
      simp

theorem levCore_eq (s1 s2 : List Char) :
    levCore s1 s2 = levRec s1.reverse s2.reverse := by
  unfold levCore
  have hinit : List.range (s1.length + 1) = rowSpec [] [] s1 := by
    rw [rowSpec_nil, List.range_eq_range']
    rfl
  rw [hinit,
    show levLoop s1 s2 (rowSpec [] [] s1) 0
        = levLoop s1 s2 (rowSpec [] [] s1) (List.length ([] : List Char)) from rfl,
    levLoop_spec s1 s2 [], rowSpec_getLastD]
  simp

/-! ### Algebraic properties of the distance -/

theorem levRec_symm_aux :
    ∀ (n : Nat) (s t : List Char), s.length + t.length ≤ n → levRec s t = levRec t s := by
  intro n
  induction n with
  | zero =>
      intro s t h
      have hs : s = [] := List.eq_nil_of_length_eq_zero (by omega)
      have ht : t = [] := List.eq_nil_of_length_eq_zero (by omega)
      rw [hs, ht]
  | succ n ih =>
      intro s t h
      cases s with
      | nil => rw [levRec_nil_left, levRec_nil_right]
      | cons a s =>
          cases t with
          | nil => rw [levRec_nil_left, levRec_nil_right]
          | cons b t =>
              simp only [List.length_cons] at h
              rw [levRec_cons_cons, levRec_cons_cons]
              by_cases hab : a = b
              · rw [if_pos hab, if_pos hab.symm]
                exact ih s t (by omega)
              · have hba : ¬b = a := fun he => hab he.symm
                rw [if_neg hab, if_neg hba,
                  ih s (b :: t) (by simp only [List.length_cons]; omega),
                  ih (a :: s) t (by simp only [List.length_cons]; omega),
                  ih s t (by omega)]
                omega

theorem levRec_symm (s t : List Char) : levRec s t = levRec t s :=
  levRec_symm_aux (s.length + t.length) s t le_rfl

theorem levRec_eq_zero_iff_aux :
    ∀ (n : Nat) (s t : List Char), s.length + t.length ≤ n → (levRec s t = 0 ↔ s = t) := by
  intro n
  induction n with
  | zero =>
      intro s t h
      have hs : s = [] := List.eq_nil_of_length_eq_zero (by omega)
      have ht : t = [] := List.eq_nil_of_length_eq_zero (by omega)
      rw [hs, ht]
      simp [levRec_nil_left]
  | succ n ih =>
      intro s t h
      cases s with
      | nil =>
          rw [levRec_nil_left]
          simp [List.length_eq_zero, eq_comm]
      | cons a s =>
          cases t with
          | nil =>
              rw [levRec_nil_right]
              simp
          | cons b t =>
              simp only [List.length_cons] at h
              rw [levRec_cons_cons]
              by_cases hab : a = b
              · rw [if_pos hab, ih s t (by omega)]
                simp [hab]
              · rw [if_neg hab]
                constructor
                · intro hz; omega
                · intro he
                  cases he
                  exact absurd rfl hab

theorem levRec_eq_zero_iff (s t : List Char) : levRec s t = 0 ↔ s = t :=
  levRec_eq_zero_iff_aux (s.length + t.length) s t le_rfl

theorem char_toNat_ofNatAux (n : Nat) (h : n.isValidChar) :
    (Char.ofNatAux n h).toNat = n := by
  simp [Char.ofNatAux, Char.toNat, UInt32.toNat]

theorem char_toLower_idem (c : Char) : c.toLower.toLower = c.toLower := by
  simp only [Char.toLower]
  by_cases h : c.toNat ≥ 65 ∧ c.toNat ≤ 90
  · rw [if_pos h]
    have hvalid : (c.toNat + 32).isValidChar := Or.inl (by omega)
    have htn : (Char.ofNat (c.toNat + 32)).toNat = c.toNat + 32 := by
      rw [Char.ofNat, dif_pos hvalid]
      exact char_toNat_ofNatAux _ _
    rw [htn, if_neg (by omega)]
  · rw [if_neg h, if_neg h]

theorem strLowerL_idem (s : List Char) : strLowerL (strLowerL s) = strLowerL s := by
  induction s with
  | nil => rfl
  | cons c s ih =>
      simp only [strLowerL, List.map_cons] at ih ⊢
      rw [char_toLower_idem, ih]

/-- C7: the similarity function returns a non-negative integer, is symmetric,
is computed case-insensitively (it equals its value on the lowercased
strings), and returns zero exactly when the lowercased strings are equal. -/
theorem c7_distance_algebraic_properties (a b : String) :
    0 ≤ levenshtein_distance a b ∧
    levenshtein_distance a b = levenshtein_distance b a ∧
    levenshtein_distance a b = levenshtein_distance (strLower a) (strLower b) ∧
    (levenshtein_distance a b = 0 ↔ strLower a = strLower b) := by
  refine ⟨Nat.zero_le _, ?_, ?_, ?_⟩
  · show (if (strLowerL a.data).length > (strLowerL b.data).length
        then levCore (strLowerL b.data) (strLowerL a.data)
        else levCore (strLowerL a.data) (strLowerL b.data)) = _
    by_cases h1 : (strLowerL a.data).length > (strLowerL b.data).length
    · rw [if_pos h1]
      show _ = if (strLowerL b.data).length > (strLowerL a.data).length
          then levCore (strLowerL a.data) (strLowerL b.data)
          else levCore (strLowerL b.data) (strLowerL a.data)
      rw [if_neg (by omega)]
    · rw [if_neg h1]
      show _ = if (strLowerL b.data).length > (strLowerL a.data).length
          then levCore (strLowerL a.data) (strLowerL b.data)
          else levCore (strLowerL b.data) (strLowerL a.data)
      by_cases h2 : (strLowerL b.data).length > (strLowerL a.data).length
      · rw [if_pos h2]
      · rw [if_neg h2, levCore_eq, levCore_eq, levRec_symm]
  · show _ = (if (strLowerL (strLower a).data).length > (strLowerL (strLower b).data).length
        then levCore (strLowerL (strLower b).data) (strLowerL (strLower a).data)
        else levCore (strLowerL (strLower a).data) (strLowerL (strLower b).data))
    have ha : strLowerL (strLower a).data = strLowerL a.data := strLowerL_idem a.data
    have hb : strLowerL (strLower b).data = strLowerL b.data := strLowerL_idem b.data
    rw [ha, hb]
    rfl
  · show (if (strLowerL a.data).length > (strLowerL b.data).length
        then levCore (strLowerL b.data) (strLowerL a.data)
        else levCore (strLowerL a.data) (strLowerL b.data)) = 0 ↔ _
    have hs : (strLower a = strLower b) ↔ strLowerL a.data = strLowerL b.data := by
      constructor
      · intro h; exact congrArg String.data h
      · intro h; exact congrArg String.mk h
    by_cases h1 : (strLowerL a.data).length > (strLowerL b.data).length
    · rw [if_pos h1, levCore_eq, levRec_eq_zero_iff, List.reverse_inj, hs]
      exact eq_comm
    · rw [if_neg h1, levCore_eq, levRec_eq_zero_iff, List.reverse_inj, hs]

/-- C1 (failing-input evaluation): the exact pass of `_find_match` reads the
plural keys `emails`, `phones`, `nrics`, `ssns` from the tentative person's
data, while the external interface supplies singular type names, so the
stored `a@x.com` is not found: a new `PERSON_1` is created and the value is
stored a second time under it, contradicting the claim. -/
theorem c1_exact_match_misses_interface_shaped_batch :
    (resolve_and_update c1Store [] c1Batch).store.persons.map Prod.fst
        = ["PERSON_0", "PERSON_1"] ∧
    getD (getD (resolve_and_update c1Store [] c1Batch).store.persons "PERSON_1" [])
        "emails" [] = [("[PERSON_1_EMAIL_0]", "a@x.com")] := by
  decide

/-- C2 (failing-input evaluation): `_merge_person_pii` snapshots
`existing_values` before its value loop and never refreshes it, so a value
repeated in the same list is stored twice under two placeholders; the
returned map holds the placeholder of the second copy. -/
theorem c2_duplicate_value_in_one_batch_stored_twice :
    getD (getD (resolve_and_update emptyStore [] c2Batch).store.persons "PERSON_0" [])
        "emails" []
      = [("[PERSON_0_EMAIL_0]", "a@x.com"), ("[PERSON_0_EMAIL_1]", "a@x.com")] ∧
    (resolve_and_update emptyStore [] c2Batch).docMap
      = [("a@x.com", "[PERSON_0_EMAIL_1]")] := by
  decide

/-- C3 (counterexample): repeating `unlinked_pii={"address": ["12 Main St"]}`
on the store where it was already processed returns the empty mapping, not
the identical mapping `{"12 Main St": "[UNMATCHED_ADDRESS_0]"}`: the stored
value is skipped and contributes no entry to the second call's map. -/
theorem c3_repeat_unlinked_returns_empty_map :
    (resolve_and_update emptyStore [] c3Batch).docMap
      = [("12 Main St", "[UNMATCHED_ADDRESS_0]")] ∧
    (resolve_and_update
        (resolve_and_update emptyStore [] c3Batch).store
        (resolve_and_update emptyStore [] c3Batch).clusters c3Batch).docMap
      = [] := by
  decide

/-- C5 (failing-input evaluation): the fuzzy pass of `_find_match` reads the
plural key `names` from the tentative person's data, while the external
interface supplies the singular `name`, so even though
`levenshtein_distance "Jon Smyth" "John Smith" = 2` is within the threshold,
no fuzzy match occurs: a new `PERSON_1` is created and no cluster-log line
is written. -/
theorem c5_fuzzy_match_misses_interface_shaped_batch :
    levenshtein_distance "Jon Smyth" "John Smith" = 2 ∧
    levenshtein_distance "Jon Smythe" "John Smith" = 3 ∧
    (resolve_and_update c5Store [] c5Batch).store.persons.map Prod.fst
        = ["PERSON_0", "PERSON_1"] ∧
    (resolve_and_update c5Store [] c5Batch).clusters = [] := by
  decide

/-- C8 (counterexample): after one `resolve_and_update` call starting from
the empty store (which satisfies the invariant vacuously), `a@x.com` is
stored both under `PERSON_0`'s `emails` category and under the unlinked type
`email` — the exactly-one-place invariant does not survive the call. -/
theorem c8_value_stored_under_person_and_unlinked :
    getD (getD (resolve_and_update emptyStore [] c8Batch).store.persons "PERSON_0" [])
        "emails" [] = [("[PERSON_0_EMAIL_0]", "a@x.com")] ∧
    getD (resolve_and_update emptyStore [] c8Batch).store.unlinked "email" []
      = [("[UNMATCHED_EMAIL_0]", "a@x.com")] := by
  decide

/-- C4: an exception during the matching/merging person loop or during
unlinked processing aborts the call before the save step: the on-disk store
and cluster log are exactly what they were before the call, the lock is
released, and an error is the outcome; the fault-free path persists the
resolved state and also releases the lock. -/
theorem c4_fault_before_save_leaves_disk_unchanged (disk : Disk) (batch : Batch)
    (f : Fault) :
    resolve_with_fault disk batch (some f) = (disk, false, Except.error ()) ∧
    resolve_with_fault disk batch none
      = (⟨FileData.valid (resolve_and_update (load_json emptyStore disk.storeFile)
            (load_json [] disk.clusterFile) batch).store,
          FileData.valid (resolve_and_update (load_json emptyStore disk.storeFile)
            (load_json [] disk.clusterFile) batch).clusters⟩, false,
         Except.ok (resolve_and_update (load_json emptyStore disk.storeFile)
            (load_json [] disk.clusterFile) batch).docMap) := by
  constructor
  · cases f <;> rfl
  · rfl

/-- C6: `_load_json` returns the empty model both when the path does not
exist and when the content is not valid JSON, for the store file and the
cluster file alike; `load_json` is total, so no exception reaches the
caller in either case. -/
theorem c6_load_missing_or_corrupt_returns_empty :
    load_json emptyStore (FileData.missing) = emptyStore ∧
    load_json emptyStore (FileData.corrupt) = emptyStore ∧
    load_json ([] : Clusters) (FileData.missing) = [] ∧
    load_json ([] : Clusters) (FileData.corrupt) = [] :=
  ⟨rfl, rfl, rfl, rfl⟩

/-- C9: `_get_next_person_id` increments `last_person_index` by exactly one
(reading `-1` when the metadata key is absent) and returns `PERSON_<n>` for
the incremented `n`; on a model with no allocation metadata the first
allocation is therefore `PERSON_0`. -/
theorem c9_next_person_id_increments (st : IdStore) :
    (get_next_person_id st).2.lastPersonIndex
        = some (st.lastPersonIndex.getD (-1) + 1) ∧
    (get_next_person_id st).1
        = "PERSON_" ++ toString (st.lastPersonIndex.getD (-1) + 1) ∧
    (st.lastPersonIndex = none → (get_next_person_id st).1 = "PERSON_0") := by
  refine ⟨rfl, rfl, ?_⟩
  intro h
  simp [get_next_person_id, h]
  rfl

/-- Witness for C9 at a concrete store with no allocation metadata, the
no-metadata hypothesis discharged by `rfl`. -/
theorem c9_next_person_id_increments_witness :
    (get_next_person_id emptyStore).2.lastPersonIndex = some 0 ∧
    (get_next_person_id emptyStore).1 = "PERSON_0" := by
  have h := c9_next_person_id_increments emptyStore
  exact ⟨by rw [h.1]; rfl, h.2.2 rfl⟩

/-! ### Lemmas on the dict model -/

theorem lookup_upsert_self {β : Type} (k : String) (v : β) (d : List (String × β)) :
    List.lookup k (upsert k v d) = some v := by
  induction d with
  | nil => simp [upsert, List.lookup]
  | cons kv rest ih =>
      obtain ⟨k₁, v₁⟩ := kv
      by_cases h : k₁ = k
      · simp [upsert, h, List.lookup]
      · simp only [upsert, if_neg h, List.lookup,
          show (k == k₁) = false from by simp [Ne.symm h]]
        exact ih

theorem lookup_upsert_ne {β : Type} {k k' : String} (h : ¬k' = k) (v : β)
    (d : List (String × β)) :
    List.lookup k' (upsert k v d) = List.lookup k' d := by
  induction d with
  | nil => simp [upsert, List.lookup, show (k' == k) = false from by simp [h]]
  | cons kv rest ih =>
      obtain ⟨k₁, v₁⟩ := kv
      by_cases h₁ : k₁ = k
      · subst h₁
        simp [upsert, List.lookup, show (k' == k₁) = false from by simp [h]]
      · by_cases h₂ : k' = k₁
        · subst h₂
          simp [upsert, if_neg h₁, List.lookup]
        · simp only [upsert, if_neg h₁, List.lookup,
            show (k' == k₁) = false from by simp [h₂]]
          exact ih

theorem lookup_upsert_isSome {β : Type} (k k' : String) (v : β)
    (d : List (String × β)) :
    (List.lookup k' (upsert k v d)).isSome = true
      ↔ k' = k ∨ (List.lookup k' d).isSome = true := by
  by_cases h : k' = k
  · subst h
    simp [lookup_upsert_self]
  · rw [lookup_upsert_ne h]
    simp [h]

theorem getD_upsert_self {β : Type} (k : String) (v dfl : β) (d : List (String × β)) :
    getD (upsert k v d) k dfl = v := by
  simp [getD, lookup_upsert_self]

theorem getD_ensureKey {β : Type} (k : String) (e : β) (d : List (String × β)) :
    getD (ensureKey k e d) k e = getD d k e := by
  unfold ensureKey
  by_cases h : (List.lookup k d).isSome
  · rw [if_pos h]
  · rw [if_neg h, getD_upsert_self, getD,
      Option.not_isSome_iff_eq_none.mp h]
    rfl

theorem lookup_ensureKey_isSome {β : Type} (k : String) (e : β) (d : List (String × β)) :
    (List.lookup k (ensureKey k e d)).isSome = true := by
  unfold ensureKey
  by_cases h : (List.lookup k d).isSome
  · rw [if_pos h]; exact h
  · rw [if_neg h, lookup_upsert_self]; rfl

theorem ensureKey_of_isSome {β : Type} {k : String} (e : β) {d : List (String × β)}
    (h : (List.lookup k d).isSome = true) : ensureKey k e d = d := by
  unfold ensureKey
  rw [if_pos h]

theorem mem_valuesOf_upsert {β : Type} (k : String) (v : β) (d : List (String × β)) :
    v ∈ valuesOf (upsert k v d) := by
  induction d with
  | nil => simp [upsert, valuesOf]
  | cons kv rest ih =>
      obtain ⟨k₁, v₁⟩ := kv
      by_cases h : k₁ = k
      · simp [upsert, h, valuesOf]
      · simp only [upsert, if_neg h, valuesOf, List.map_cons, List.mem_cons]
        exact Or.inr ih

theorem count_valuesOf_upsert (k v : String) (d : List (String × String))
    (h : v ∉ valuesOf d) : (valuesOf (upsert k v d)).count v = 1 := by
  induction d with
  | nil => simp [upsert, valuesOf]
  | cons kv rest ih =>
      obtain ⟨k₁, v₁⟩ := kv
      simp only [valuesOf, List.map_cons, List.mem_cons, not_or] at h
      by_cases hk : k₁ = k
      · simp only [upsert, if_pos hk, valuesOf, List.map_cons]
        rw [List.count_cons_self, List.count_eq_zero.mpr (fun hm => h.2 hm)]
      · simp only [upsert, if_neg hk, valuesOf, List.map_cons]
        rw [List.count_cons_of_ne h.1]
        exact ih h.2

/-! ### Behaviour of `resolve_and_update` on a single unlinked value -/

theorem resolve_unlinked_single (st : IdStore) (cl : Clusters) (t v : String)
    (h : v ∉ valuesOf (getD st.unlinked t [])) :
    resolve_and_update st cl ⟨[], [(t, [v])]⟩ =
      { store := { st with
            unlinked := upsert t
              (upsert ("[UNMATCHED_" ++ strUpper t ++ "_"
                  ++ toString (getD st.unlinkedCounters (strUpper t) 0) ++ "]")
                v (getD st.unlinked t []))
              (ensureKey t [] st.unlinked)
            unlinkedCounters := upsert (strUpper t)
              (getD st.unlinkedCounters (strUpper t) 0 + 1) st.unlinkedCounters }
        clusters := cl
        piiLookup := build_lookup_index st.persons
        docMap := [(v, "[UNMATCHED_" ++ strUpper t ++ "_"
            ++ toString (getD st.unlinkedCounters (strUpper t) 0) ++ "]")]
        storedLog := [v] } := by
  simp only [resolve_and_update, List.foldl_nil, process_unlinked_pii,
    processUnlinkedValues, getD_ensureKey]
  rw [if_neg h]
  rfl

theorem resolve_unlinked_single_skip (st : IdStore) (cl : Clusters) (t v : String)
    (h : v ∈ valuesOf (getD st.unlinked t [])) :
    resolve_and_update st cl ⟨[], [(t, [v])]⟩ =
      { store := { st with unlinked := ensureKey t [] st.unlinked }
        clusters := cl
        piiLookup := build_lookup_index st.persons
        docMap := []
        storedLog := [] } := by
  simp only [resolve_and_update, List.foldl_nil, process_unlinked_pii,
    processUnlinkedValues, getD_ensureKey]
  rw [if_pos h]
  rfl

theorem processUnlinkedValues_dup (t v : String) (acc : UnlinkedAcc)
    (h : v ∉ valuesOf (getD acc.ustore t [])) :
    processUnlinkedValues t [v, v] acc = processUnlinkedValues t [v] acc := by
  simp only [processUnlinkedValues, if_neg h]
  rw [if_pos]
  show v ∈ valuesOf (getD (upsert t _ acc.ustore) t [])
  rw [getD_upsert_self]
  exact mem_valuesOf_upsert _ v _

theorem resolve_unlinked_dup (st : IdStore) (cl : Clusters) (t v : String)
    (h : v ∉ valuesOf (getD st.unlinked t [])) :
    resolve_and_update st cl ⟨[], [(t, [v, v])]⟩
      = resolve_and_update st cl ⟨[], [(t, [v])]⟩ := by
  have hcond : v ∉ valuesOf (getD
      (⟨ensureKey t [] st.unlinked, st.unlinkedCounters, [], []⟩ : UnlinkedAcc).ustore t []) := by
    show v ∉ valuesOf (getD (ensureKey t [] st.unlinked) t [])
    rw [getD_ensureKey]
    exact h
  simp only [resolve_and_update, List.foldl_nil, process_unlinked_pii]
  rw [processUnlinkedValues_dup t v _ hcond]

/-- C3 (amended): submitting an unlinked value twice for its type yields
exactly one stored entry, and the first submission maps the value to its
placeholder; but the repeated submission is skipped rather than re-answered:
a second call on the resulting store leaves the store unchanged and returns
the empty mapping (not the identical mapping), and a duplicate within one
call behaves exactly like a single submission. -/
theorem c3_unlinked_resubmission_amended (st : IdStore) (cl : Clusters) (t v : String)
    (h : v ∉ valuesOf (getD st.unlinked t [])) :
    (valuesOf (getD (resolve_and_update st cl ⟨[], [(t, [v])]⟩).store.unlinked t [])).count v
        = 1 ∧
    (resolve_and_update st cl ⟨[], [(t, [v])]⟩).docMap
      = [(v, "[UNMATCHED_" ++ strUpper t ++ "_"
          ++ toString (getD st.unlinkedCounters (strUpper t) 0) ++ "]")] ∧
    (resolve_and_update (resolve_and_update st cl ⟨[], [(t, [v])]⟩).store
        (resolve_and_update st cl ⟨[], [(t, [v])]⟩).clusters ⟨[], [(t, [v])]⟩).store
      = (resolve_and_update st cl ⟨[], [(t, [v])]⟩).store ∧
    (resolve_and_update (resolve_and_update st cl ⟨[], [(t, [v])]⟩).store
        (resolve_and_update st cl ⟨[], [(t, [v])]⟩).clusters ⟨[], [(t, [v])]⟩).docMap
      = [] ∧
    resolve_and_update st cl ⟨[], [(t, [v, v])]⟩
      = resolve_and_update st cl ⟨[], [(t, [v])]⟩ := by
  have hr1 := resolve_unlinked_single st cl t v h
  have hu : getD (resolve_and_update st cl ⟨[], [(t, [v])]⟩).store.unlinked t []
      = upsert ("[UNMATCHED_" ++ strUpper t ++ "_"
          ++ toString (getD st.unlinkedCounters (strUpper t) 0) ++ "]")
        v (getD st.unlinked t []) := by
    rw [hr1]
    exact getD_upsert_self _ _ _ _
  have hmem : v ∈ valuesOf (getD (resolve_and_update st cl ⟨[], [(t, [v])]⟩).store.unlinked t []) := by
    rw [hu]
    exact mem_valuesOf_upsert _ v _
  have hr2 := resolve_unlinked_single_skip
    (resolve_and_update st cl ⟨[], [(t, [v])]⟩).store
    (resolve_and_update st cl ⟨[], [(t, [v])]⟩).clusters t v hmem
  have hsome : (List.lookup t (resolve_and_update st cl ⟨[], [(t, [v])]⟩).store.unlinked).isSome
      = true := by
    rw [hr1]
    show (List.lookup t (upsert t _ _)).isSome = true
    rw [lookup_upsert_self]
    rfl
  refine ⟨?_, ?_, ?_, ?_, resolve_unlinked_dup st cl t v h⟩
  · rw [hu]
    exact count_valuesOf_upsert _ _ _ h
  · rw [hr1]
  · rw [hr2, ensureKey_of_isSome [] hsome]
  · rw [hr2]

/-- Witness for the amended C3 at the claimed concrete scenario. -/
theorem c3_unlinked_resubmission_amended_witness :
    (valuesOf (getD (resolve_and_update emptyStore []
        ⟨[], [("address", ["12 Main St"])]⟩).store.unlinked "address" [])).count "12 Main St"
        = 1 ∧
    (resolve_and_update emptyStore [] ⟨[], [("address", ["12 Main St"])]⟩).docMap
      = [("12 Main St", "[UNMATCHED_" ++ strUpper "address" ++ "_"
          ++ toString (getD emptyStore.unlinkedCounters (strUpper "address") 0) ++ "]")] ∧
    (resolve_and_update (resolve_and_update emptyStore []
        ⟨[], [("address", ["12 Main St"])]⟩).store
        (resolve_and_update emptyStore [] ⟨[], [("address", ["12 Main St"])]⟩).clusters
        ⟨[], [("address", ["12 Main St"])]⟩).store
      = (resolve_and_update emptyStore [] ⟨[], [("address", ["12 Main St"])]⟩).store ∧
    (resolve_and_update (resolve_and_update emptyStore []
        ⟨[], [("address", ["12 Main St"])]⟩).store
        (resolve_and_update emptyStore [] ⟨[], [("address", ["12 Main St"])]⟩).clusters
        ⟨[], [("address", ["12 Main St"])]⟩).docMap = [] ∧
    resolve_and_update emptyStore [] ⟨[], [("address", ["12 Main St", "12 Main St"])]⟩
      = resolve_and_update emptyStore [] ⟨[], [("address", ["12 Main St"])]⟩ :=
  c3_unlinked_resubmission_amended emptyStore [] "address" "12 Main St" (by decide)

/-- C8 (amended): the one-place invariant is not maintained — the unlinked
duplicate check consults only the unlinked type's own entries, so a value
not yet stored under the unlinked type is stored there even when it is
already stored under some person (whose records are left untouched),
producing a copy in both places. -/
theorem c8_exclusive_storage_amended (st : IdStore) (cl : Clusters) (t v : String)
    (h : v ∉ valuesOf (getD st.unlinked t [])) :
    v ∈ valuesOf (getD (resolve_and_update st cl ⟨[], [(t, [v])]⟩).store.unlinked t []) ∧
    (resolve_and_update st cl ⟨[], [(t, [v])]⟩).store.persons = st.persons := by
  have hr1 := resolve_unlinked_single st cl t v h
  constructor
  · rw [hr1]
    show v ∈ valuesOf (getD (upsert t _ _) t [])
    rw [getD_upsert_self]
    exact mem_valuesOf_upsert _ v _
  · rw [hr1]

/-- Witness for the amended C8: the store already holds `a@x.com` under
`PERSON_0`, and the unlinked submission stores a second copy anyway. -/
theorem c8_exclusive_storage_amended_witness :
    "a@x.com" ∈ valuesOf (getD (resolve_and_update c1Store []
        ⟨[], [("email", ["a@x.com"])]⟩).store.unlinked "email" []) ∧
    (resolve_and_update c1Store [] ⟨[], [("email", ["a@x.com"])]⟩).store.persons
      = c1Store.persons :=
  c8_exclusive_storage_amended c1Store [] "email" "a@x.com" (by decide)

/-! ### The returned map contains exactly the values stored by the call -/

theorem lookup_updateA_isSome {β : Type} :
    ∀ (m d : List (String × β)) (x : String),
      (List.lookup x (updateA d m)).isSome = true
        ↔ (List.lookup x d).isSome = true ∨ (List.lookup x m).isSome = true := by
  intro m
  induction m with
  | nil => intro d x; simp [updateA, List.lookup]
  | cons kv rest ih =>
      obtain ⟨k, w⟩ := kv
      intro d x
      show (List.lookup x (updateA (upsert k w d) rest)).isSome = true ↔ _
      rw [ih (upsert k w d) x, lookup_upsert_isSome]
      by_cases hx : x = k
      · subst hx
        simp [List.lookup]
      · simp only [List.lookup, show (x == k) = false from by simp [hx], hx,
          false_or]

theorem updateA_append_mapLog {d2 : List (String × String)} {l2 : List String}
    (hd : ∀ x, (List.lookup x d2).isSome = true ↔ x ∈ l2)
    {d1 : List (String × String)} {l1 : List String}
    (h1 : ∀ x, (List.lookup x d1).isSome = true ↔ x ∈ l1) (x : String) :
    (List.lookup x (updateA d1 d2)).isSome = true ↔ x ∈ l1 ++ l2 := by
  rw [lookup_updateA_isSome, h1 x, hd x, List.mem_append]

theorem mergeValues_mapLog (personId piiType plural : String) (existing : List String) :
    ∀ (vs : List String) (acc : MergeAcc),
      (∀ x, (List.lookup x acc.placeholders).isSome = true ↔ x ∈ acc.storedLog) →
      ∀ x, (List.lookup x
          (mergeValues personId piiType plural existing vs acc).placeholders).isSome = true
        ↔ x ∈ (mergeValues personId piiType plural existing vs acc).storedLog := by
  intro vs
  induction vs with
  | nil => intro acc hinv; exact hinv
  | cons v vs ih =>
      intro acc hinv
      by_cases hmem : v ∈ existing
      · simp only [mergeValues, if_pos hmem]
        exact ih acc hinv
      · simp only [mergeValues, if_neg hmem]
        apply ih
        intro x
        simp only [lookup_upsert_isSome, List.mem_append, List.mem_singleton, hinv x]
        tauto

theorem mergePii_mapLog (personId : String) :
    ∀ (pd : PiiData) (acc : MergeAcc),
      (∀ x, (List.lookup x acc.placeholders).isSome = true ↔ x ∈ acc.storedLog) →
      ∀ x, (List.lookup x (mergePii personId pd acc).placeholders).isSome = true
        ↔ x ∈ (mergePii personId pd acc).storedLog := by
  intro pd
  induction pd with
  | nil => intro acc hinv; exact hinv
  | cons tv rest ih =>
      obtain ⟨pty, vs⟩ := tv
      intro acc hinv
      simp only [mergePii]
      exact ih _ (mergeValues_mapLog _ _ _ _ vs _ hinv)

theorem processUnlinkedValues_mapLog (piiType : String) :
    ∀ (vs : List String) (acc : UnlinkedAcc),
      (∀ x, (List.lookup x acc.placeholders).isSome = true ↔ x ∈ acc.storedLog) →
      ∀ x, (List.lookup x (processUnlinkedValues piiType vs acc).placeholders).isSome = true
        ↔ x ∈ (processUnlinkedValues piiType vs acc).storedLog := by
  intro vs
  induction vs with
  | nil => intro acc hinv; exact hinv
  | cons v vs ih =>
      intro acc hinv
      by_cases hmem : v ∈ valuesOf (getD acc.ustore piiType [])
      · simp only [processUnlinkedValues, if_pos hmem]
        exact ih acc hinv
      · simp only [processUnlinkedValues, if_neg hmem]
        apply ih
        intro x
        simp only [lookup_upsert_isSome, List.mem_append, List.mem_singleton, hinv x]
        tauto

theorem process_unlinked_pii_mapLog :
    ∀ (pd : PiiData) (acc : UnlinkedAcc),
      (∀ x, (List.lookup x acc.placeholders).isSome = true ↔ x ∈ acc.storedLog) →
      ∀ x, (List.lookup x (process_unlinked_pii pd acc).placeholders).isSome = true
        ↔ x ∈ (process_unlinked_pii pd acc).storedLog := by
  intro pd
  induction pd with
  | nil => intro acc hinv; exact hinv
  | cons tv rest ih =>
      obtain ⟨pty, vs⟩ := tv
      intro acc hinv
      simp only [process_unlinked_pii]
      exact ih _ (processUnlinkedValues_mapLog pty vs _ hinv)

theorem processPerson_mapLog (rs : ResolveState) (piiData : PiiData)
    (hinv : ∀ x, (List.lookup x rs.docMap).isSome = true ↔ x ∈ rs.storedLog) :
    ∀ x, (List.lookup x (processPerson rs piiData).docMap).isSome = true
      ↔ x ∈ (processPerson rs piiData).storedLog := by
  intro x
  have hnil : ∀ y, (List.lookup y ([] : List (String × String))).isSome = true
      ↔ y ∈ ([] : List String) := by
    intro y
    simp [List.lookup]
  cases hm : (find_match rs.piiLookup rs.store.persons rs.clusters piiData).1 with
  | none =>
      simp only [processPerson, hm, merge_person_pii]
      exact updateA_append_mapLog (mergePii_mapLog _ piiData _ hnil) hinv x
  | some pid =>
      simp only [processPerson, hm, merge_person_pii]
      exact updateA_append_mapLog (mergePii_mapLog _ piiData _ hnil) hinv x

theorem foldl_processPerson_mapLog :
    ∀ (l : List (String × PiiData)) (rs : ResolveState),
      (∀ x, (List.lookup x rs.docMap).isSome = true ↔ x ∈ rs.storedLog) →
      ∀ x, (List.lookup x
          ((l.foldl (fun rs tp => processPerson rs tp.2) rs).docMap)).isSome = true
        ↔ x ∈ (l.foldl (fun rs tp => processPerson rs tp.2) rs).storedLog := by
  intro l
  induction l with
  | nil => intro rs h; exact h
  | cons tp rest ih =>
      intro rs h
      exact ih _ (processPerson_mapLog rs tp.2 h)

/-- C10: the returned `document_masking_map` has an entry for a raw value
exactly when this call stored that value somewhere (the ghost `storedLog`
records each storing assignment); moreover the skip paths contribute
nothing: re-submitting an unlinked value already stored under its type
returns the empty map, and merging a value already present under the target
person's category allocates no placeholder and stores nothing. -/
theorem c10_map_entry_iff_newly_stored :
    (∀ (st : IdStore) (cl : Clusters) (batch : Batch) (x : String),
        (List.lookup x (resolve_and_update st cl batch).docMap).isSome = true
          ↔ x ∈ (resolve_and_update st cl batch).storedLog) ∧
    (∀ (st : IdStore) (cl : Clusters) (t v : String),
        v ∈ valuesOf (getD st.unlinked t []) →
        (resolve_and_update st cl ⟨[], [(t, [v])]⟩).docMap = []) ∧
    (∀ (persons : List (String × PersonRecord)) (pid pty v : String)
        (lk : List (String × String)),
        v ∈ valuesOf (getD (getD persons pid []) (strLower pty ++ "s") []) →
        (merge_person_pii pid [(pty, [v])] persons lk).2.placeholders = [] ∧
        (merge_person_pii pid [(pty, [v])] persons lk).2.storedLog = []) := by
  have hnil : ∀ y, (List.lookup y ([] : List (String × String))).isSome = true
      ↔ y ∈ ([] : List String) := by
    intro y
    simp [List.lookup]
  refine ⟨?_, ?_, ?_⟩
  · intro st cl batch x
    show (List.lookup x (updateA _ _)).isSome = true ↔ _
    exact updateA_append_mapLog
      (process_unlinked_pii_mapLog batch.unlinked_pii _ hnil)
      (foldl_processPerson_mapLog batch.persons _ hnil) x
  · intro st cl t v h
    rw [resolve_unlinked_single_skip st cl t v h]
  · intro persons pid pty v lk h
    have hmem : v ∈ valuesOf (getD
        (ensureKey (strLower pty ++ "s") [] (getD persons pid []))
        (strLower pty ++ "s") []) := by
      rw [getD_ensureKey]
      exact h
    constructor
    · simp only [merge_person_pii, mergePii, mergeValues, if_pos hmem]
    · simp only [merge_person_pii, mergePii, mergeValues, if_pos hmem]

/-- Witness for C10 at concrete inputs discharging each hypothesis. -/
theorem c10_map_entry_iff_newly_stored_witness :
    ((List.lookup "a@x.com" (resolve_and_update emptyStore [] c2Batch).docMap).isSome = true
      ↔ "a@x.com" ∈ (resolve_and_update emptyStore [] c2Batch).storedLog) ∧
    (resolve_and_update
        ⟨[], [("address", [("[UNMATCHED_ADDRESS_0]", "12 Main St")])], none, [("ADDRESS", 1)]⟩
        [] ⟨[], [("address", ["12 Main St"])]⟩).docMap = [] ∧
    ((merge_person_pii "PERSON_0" [("email", ["a@x.com"])] c1Store.persons []).2.placeholders
        = [] ∧
     (merge_person_pii "PERSON_0" [("email", ["a@x.com"])] c1Store.persons []).2.storedLog
        = []) :=
  ⟨c10_map_entry_iff_newly_stored.1 emptyStore [] c2Batch "a@x.com",
   c10_map_entry_iff_newly_stored.2.1
     ⟨[], [("address", [("[UNMATCHED_ADDRESS_0]", "12 Main St")])], none, [("ADDRESS", 1)]⟩
     [] "address" "12 Main St" (by decide),
   c10_map_entry_iff_newly_stored.2.2 c1Store.persons "PERSON_0" "email" "a@x.com" []
     (by decide)⟩
